import Mathlib

/-!
Verification of the BeatRX procedural music generator core.

The definitions below are a shallow embedding of the music-generation and
sequencing core of the application (`src/App.tsx`).  Notes are modelled as
the strings the program manipulates (note name concatenated with a
single-digit octave, e.g. "C4"); MIDI numbers are `Nat`; randomness is
modelled by an explicit index parameter `r : Nat`, the chosen element being
`list.getD (r % list.length)` so that ranging over all `r` ranges over all
possible outcomes of `Math.floor(Math.random() * list.length)`.
-/

namespace BeatRX

/-- The twelve pitch-class names used by the note library when converting a
MIDI number to a note name (sharps, never flats). -/
def NOTE_NAMES : List String :=
  ["C", "C#", "D", "D#", "E", "F"] ++ ["F#", "G", "G#", "A", "A#", "B"]

/-- Pitch-class index of a note-name spelling, as resolved by the note
library when parsing a note string.  Accepts naturals, sharps and flats;
enharmonic spellings map to the same index ("D#" and "Eb" are both 3). -/
def NOTE_NAME_TO_PC : List (String × Nat) :=
  [("C", 0), ("C#", 1), ("Db", 1), ("D", 2), ("D#", 3), ("Eb", 3),
   ("E", 4), ("F", 5), ("F#", 6), ("Gb", 6), ("G", 7), ("G#", 8),
   ("Ab", 8), ("A", 9), ("A#", 10), ("Bb", 10), ("B", 11)]

def pitchClassIndex (name : String) : Option Nat :=
  NOTE_NAME_TO_PC.lookup name

/-- `midiToNote`: converts a MIDI number to a note name, e.g. 48 ↦ "C3"
(`Tone.Midi(midi).toNote()`: sharp spelling, octave = ⌊midi/12⌋ - 1). -/
def midiToNote (midi : Nat) : String :=
  NOTE_NAMES.getD (midi % 12) "" ++ toString ((midi : Int) / 12 - 1)

/-- `noteToMidi`: converts a note name such as "C3" to its MIDI number
(`Tone.Midi(note).toMidi()`).  The embedding parses the octave from the
last character, which is faithful for the single-digit octaves (0–9) that
are the only ones the program ever produces or consumes. -/
def noteToMidi (note : String) : Nat :=
  (pitchClassIndex (note.dropRight 1)).getD 0 + 12 * (note.back.toNat - 48 + 1)

/-- Chord types supported by `getChordNotes`. -/
inductive ChordType where
  | major
  | minor
  | dominant7
deriving DecidableEq

/-- The interval table of `getChordNotes` (the `switch` on `type`). -/
def chordIntervals : ChordType → List Nat
  | ChordType.major => [0, 4, 7]      -- Root, Major 3rd, Perfect 5th
  | ChordType.minor => [0, 3, 7]      -- Root, Minor 3rd, Perfect 5th
  | ChordType.dominant7 => [0, 4, 7, 10] -- Root, Major 3rd, Perfect 5th, Minor 7th

/-- `getChordNotes(rootMidi, type)`: notes of a chord built on a root MIDI
number: `intervals.map(interval => midiToNote(rootMidi + interval))`. -/
def getChordNotes (rootMidi : Nat) (type : ChordType) : List String :=
  (chordIntervals type).map (fun interval => midiToNote (rootMidi + interval))

/-- The list of octaves enumerated by
`for (let octave = min; octave <= max; octave++)`. -/
def octavesIn (mn mx : Int) : List Int :=
  (List.range (mx + 1 - mn).toNat).map (fun (k : Nat) => mn + (k : Int))

/-- The candidate pool of `generateConsistentMelodyNote`: every scale note
name paired with every octave in the range (octave outer loop, scale inner
loop), pushed as `noteName ++ octave`. -/
def allPossibleNotes (scale : List String) (mn mx : Int) : List String :=
  (octavesIn mn mx).flatMap (fun octave => scale.map (fun noteName => noteName ++ toString octave))

/-- The filter of `generateConsistentMelodyNote`: keep a candidate when its
raw note name (octave character stripped with `slice(0, -1)`) is string-equal
to some chord note's raw name. -/
def harmonicallyCompatibleNotes (scale currentChordNotes : List String) (mn mx : Int) :
    List String :=
  (allPossibleNotes scale mn mx).filter (fun note =>
    currentChordNotes.any (fun chordNote => note.dropRight 1 == chordNote.dropRight 1))

/-- `generateConsistentMelodyNote(scale, currentChordNotes, octaveRange)`:
pick a random harmonically compatible note, falling back to a random
candidate from the whole pool when the compatible set is empty.  The random
draw `Math.floor(Math.random() * len)` is modelled by `r % len`. -/
def generateConsistentMelodyNote (scale currentChordNotes : List String)
    (mn mx : Int) (r : Nat) : String :=
  let all := allPossibleNotes scale mn mx
  let compat := harmonicallyCompatibleNotes scale currentChordNotes mn mx
  if 0 < compat.length then
    compat.getD (r % compat.length) ""
  else
    all.getD (r % all.length) ""

/-- The 18 supported keys (`ALL_KEYS`). -/
inductive AllKey where
  | C_major | G_major | D_major | E_major | A_major | B_major
  | C_minor | G_minor | D_minor | E_minor | A_minor | B_minor
  | C_harmonic_minor | G_harmonic_minor | D_harmonic_minor
  | E_harmonic_minor | A_harmonic_minor | B_harmonic_minor
deriving DecidableEq

/-- The `SCALES` table. -/
def SCALES : AllKey → List String
  | AllKey.C_major => ["C", "D", "E", "F", "G", "A", "B"]
  | AllKey.G_major => ["G", "A", "B", "C", "D", "E", "F#"]
  | AllKey.D_major => ["D", "E", "F#", "G", "A", "B", "C#"]
  | AllKey.E_major => ["E", "F#", "G#", "A", "B", "C#", "D#"]
  | AllKey.A_major => ["A", "B", "C#", "D", "E", "F#", "G#"]
  | AllKey.B_major => ["B", "C#", "D#", "E", "F#", "G#", "A#"]
  | AllKey.C_minor => ["C", "D", "Eb", "F", "G", "Ab", "Bb"]
  | AllKey.G_minor => ["G", "A", "Bb", "C", "D", "Eb", "F"]
  | AllKey.D_minor => ["D", "E", "F", "G", "A", "Bb", "C"]
  | AllKey.E_minor => ["E", "F#", "G", "A", "B", "C", "D"]
  | AllKey.A_minor => ["A", "B", "C", "D", "E", "F", "G"]
  | AllKey.B_minor => ["B", "C#", "D", "E", "F#", "G", "A"]
  | AllKey.C_harmonic_minor => ["C", "D", "Eb", "F", "G", "Ab", "B"]
  | AllKey.G_harmonic_minor => ["G", "A", "Bb", "C", "D", "Eb", "F#"]
  | AllKey.D_harmonic_minor => ["D", "E", "F", "G", "A", "Bb", "C#"]
  | AllKey.E_harmonic_minor => ["E", "F#", "G", "A", "B", "C", "D#"]
  | AllKey.A_harmonic_minor => ["A", "B", "C", "D", "E", "F", "G#"]
  | AllKey.B_harmonic_minor => ["B", "C#", "D", "E", "F#", "G", "A#"]

/-- One entry of `CHORD_PROGRESSIONS_DEFINITIONS`. -/
structure ChordDef where
  degree : String
  rootOffset : Nat
  type : ChordType
deriving DecidableEq

/-- Major-family progression shape: I – IV – V7 – I. -/
def majorProgressionDef : List ChordDef :=
  [⟨"I", 0, ChordType.major⟩, ⟨"IV", 5, ChordType.major⟩,
   ⟨"V7", 7, ChordType.dominant7⟩, ⟨"I", 0, ChordType.major⟩]

/-- Minor-family progression shape: i – iv – V7 – i. -/
def minorProgressionDef : List ChordDef :=
  [⟨"i", 0, ChordType.minor⟩, ⟨"iv", 5, ChordType.minor⟩,
   ⟨"V7", 7, ChordType.dominant7⟩, ⟨"i", 0, ChordType.minor⟩]

/-- The `CHORD_PROGRESSIONS_DEFINITIONS` table: every major key maps to the
I–IV–V7–I shape, every (harmonic) minor key to the i–iv–V7–i shape, exactly
as the 18 table entries in the source spell out. -/
def CHORD_PROGRESSIONS_DEFINITIONS : AllKey → List ChordDef
  | AllKey.C_major => majorProgressionDef
  | AllKey.G_major => majorProgressionDef
  | AllKey.D_major => majorProgressionDef
  | AllKey.E_major => majorProgressionDef
  | AllKey.A_major => majorProgressionDef
  | AllKey.B_major => majorProgressionDef
  | AllKey.C_minor => minorProgressionDef
  | AllKey.G_minor => minorProgressionDef
  | AllKey.D_minor => minorProgressionDef
  | AllKey.E_minor => minorProgressionDef
  | AllKey.A_minor => minorProgressionDef
  | AllKey.B_minor => minorProgressionDef
  | AllKey.C_harmonic_minor => minorProgressionDef
  | AllKey.G_harmonic_minor => minorProgressionDef
  | AllKey.D_harmonic_minor => minorProgressionDef
  | AllKey.E_harmonic_minor => minorProgressionDef
  | AllKey.A_harmonic_minor => minorProgressionDef
  | AllKey.B_harmonic_minor => minorProgressionDef

/-- Progression resolution, the middle of `generateRandomMusicData`: root
MIDI of the key at octave 3, then each `chordDef` resolved by transposing
the root, re-anchoring the spelled root name at octave 3, and expanding with
`getChordNotes`. -/
def buildProgression (key : AllKey) : List (List String) :=
  let rootMidiForProgression := noteToMidi ((SCALES key).headD "" ++ "3")
  (CHORD_PROGRESSIONS_DEFINITIONS key).map (fun chordDef =>
    let rootNoteForChord := midiToNote (rootMidiForProgression + chordDef.rootOffset)
    getChordNotes (noteToMidi (rootNoteForChord.dropRight 1 ++ "3")) chordDef.type)

/-- The chord-index-for-step mapping `Math.floor(step / 4) % length`,
computed identically in `generateRandomMusicData` (melody pre-generation)
and in the `Tone.Sequence` tick callback of `setupSequence`. -/
def chordIndexForStep (step len : Nat) : Nat :=
  step / 4 % len

/-- The loop-mode melody pre-generation of `generateRandomMusicData`:
`Array(16).fill(null).map((_, i) => ...)` with octave range {min: 4, max: 5},
the chord for slot `i` resolved through the chord-index mapping.  `rng i`
supplies the random draw for slot `i`. -/
def buildLoopMelody (scale : List String) (progression : List (List String))
    (rng : Nat → Nat) : List String :=
  (List.range 16).map (fun i =>
    let chordIndex := chordIndexForStep i progression.length
    let currentChordNotes := progression.getD chordIndex []
    generateConsistentMelodyNote scale currentChordNotes 4 5 (rng i))

/-! ### Sequencer tick (`setupSequence` callback) -/

/-- `activeMode`. -/
inductive Mode where
  | random
  | manual
deriving DecidableEq

/-- `playbackMode`. -/
inductive PlaybackMode where
  | loop
  | song
deriving DecidableEq

/-- `soundPalettes`. -/
inductive SoundPalette where
  | sawtooth | square | sine | triangle | Chiptune | Synthwave | Acid | FMBells
deriving DecidableEq

/-- The dynamic class of `synthRef.current`, as tested by the
`instanceof Tone.PolySynth` / `instanceof Tone.MonoSynth` guards;
`absent` models a `null` ref. -/
inductive SynthKind where
  | poly
  | mono
  | absent
deriving DecidableEq

/-- One drum pattern: three 16-entry binary arrays. -/
structure DrumPattern where
  name : String
  kick : List Nat
  snare : List Nat
  hihat : List Nat
deriving DecidableEq

/-- The `drumPatterns` table. -/
def drumPatterns : List DrumPattern :=
  [⟨"House",
    [1, 0, 0, 0] ++ [1, 0, 0, 0] ++ [1, 0, 0, 0] ++ [1, 0, 0, 0],
    [0, 0, 0, 0] ++ [1, 0, 0, 0] ++ [0, 0, 0, 0] ++ [1, 0, 0, 0],
    [0, 0, 1, 0] ++ [0, 0, 1, 0] ++ [0, 0, 1, 0] ++ [0, 0, 1, 0]⟩,
   ⟨"Breakbeat",
    [1, 0, 0, 1] ++ [0, 1, 0, 0] ++ [1, 0, 0, 1] ++ [0, 0, 0, 0],
    [0, 0, 0, 0] ++ [1, 0, 0, 0] ++ [0, 0, 0, 0] ++ [1, 0, 0, 0],
    [1, 1, 1, 1] ++ [1, 1, 1, 1] ++ [1, 1, 1, 1] ++ [1, 1, 1, 1]⟩,
   ⟨"Trap",
    [1, 0, 0, 0] ++ [0, 0, 0, 1] ++ [0, 0, 1, 0] ++ [0, 0, 0, 0],
    [0, 0, 0, 0] ++ [1, 0, 0, 0] ++ [0, 0, 0, 0] ++ [1, 0, 0, 0],
    [0, 0, 1, 1] ++ [0, 0, 1, 1] ++ [0, 0, 1, 1] ++ [0, 0, 1, 1]⟩,
   ⟨"Minimal",
    [1, 0, 0, 0] ++ [0, 0, 0, 0] ++ [1, 0, 0, 0] ++ [0, 0, 0, 0],
    [0, 0, 0, 0] ++ [0, 0, 0, 0] ++ [0, 0, 0, 0] ++ [1, 0, 0, 0],
    [0, 0, 0, 0] ++ [0, 0, 1, 0] ++ [0, 0, 0, 0] ++ [0, 0, 1, 0]⟩,
   ⟨"Synthwave",
    [1, 0, 0, 0] ++ [1, 0, 0, 0] ++ [1, 0, 0, 0] ++ [1, 0, 0, 0],
    [0, 0, 0, 0] ++ [1, 0, 0, 0] ++ [0, 0, 0, 0] ++ [1, 0, 0, 0],
    [1, 0, 1, 0] ++ [1, 0, 1, 0] ++ [1, 0, 1, 0] ++ [1, 0, 1, 0]⟩]

/-- `notesForManualSequence` (rows of the manual grid, top to bottom). -/
def notesForManualSequence : List String :=
  ["C5", "B4", "A4", "G4", "F4", "E4", "D4", "C4"]

/-- An event dispatched by one tick of the sequencer: an attack/release (or
attack-only / release-only for the Chiptune sustained melody) on one of the
voices, carrying note, duration and transport time. -/
inductive Event where
  | melodyAttackRelease (note : String) (dur : String) (time : ℚ)
  | melodyAttack (note : String) (time : ℚ)
  | melodyRelease (note : String) (time : ℚ)
  | bassNote (note : String) (dur : String) (time : ℚ)
  | chordBlock (notes : List String) (dur : String) (time : ℚ)
  | chordMono (note : String) (dur : String) (time : ℚ)
  | arpNote (note : String) (dur : String) (time : ℚ)
  | manualNote (note : String) (dur : String) (time : ℚ)
  | kick (note : String) (dur : String) (time : ℚ)
  | hihat (dur : String) (time : ℚ)
  | snare (dur : String) (time : ℚ)
deriving DecidableEq

/-- JS truthiness of the optional melody-note string (`undefined` and the
empty string are falsy). -/
def optTruthy : Option String → Bool
  | some s => s ≠ ""
  | none => false

/-- `Tone.Time('16n').toSeconds()`: the duration of one sixteenth note at
the given tempo, 60/(bpm·4) seconds. -/
def sixteenthSeconds (bpm : ℚ) : ℚ :=
  60 / (bpm * 4)

/-- Pre-synthesizer state read by one tick of the `Tone.Sequence` callback
in `setupSequence`.  The `*Present` flags model the null checks on the
instrument refs; `chiptuneHeld` models `chiptuneMelodyNoteRef.current`. -/
structure SeqState where
  activeMode : Mode
  playbackMode : PlaybackMode
  soundPalette : SoundPalette
  synthKind : SynthKind
  bassPresent : Bool
  kickPresent : Bool
  snarePresent : Bool
  hihatPresent : Bool
  isArpeggiatorOn : Bool
  randomKey : AllKey
  progression : List (List String)
  melody : List String
  manualSequence : List (List Bool)
  pattern : DrumPattern
  chiptuneHeld : Option String

/-- The melody section of the tick (`--- Melody Logic ---`): Chiptune with a
PolySynth releases the held note and attacks the new one; otherwise a plain
attack-release when a melody note exists and the synth ref is set. -/
def randomMelodyEvents (palette : SoundPalette) (synthKind : SynthKind)
    (held melodyNote : Option String) (t : ℚ) : List Event :=
  if palette = SoundPalette.Chiptune ∧ synthKind = SynthKind.poly then
    (match held with
      | some n => if n ≠ "" then [Event.melodyRelease n t] else []
      | none => []) ++
    (match melodyNote with
      | some m => if m ≠ "" then [Event.melodyAttack m t] else []
      | none => [])
  else
    match melodyNote with
    | some m => if m ≠ "" ∧ synthKind ≠ SynthKind.absent then
        [Event.melodyAttackRelease m "8n" t] else []
    | none => []

/-- The bass section: on `step % 4 === 0`, the first chord note re-anchored
at octave 2 (`currentChord` is an array and hence always truthy in JS). -/
def bassEvents (bassPresent : Bool) (currentChord : List String) (step : Nat)
    (t : ℚ) : List Event :=
  if step % 4 = 0 ∧ bassPresent then
    [Event.bassNote ((currentChord.headD "").dropRight 1 ++ "2") "2n" t]
  else []

/-- The chord section: on `step % 8 === 0`, either a forward arpeggio (one
sixteenth note apart, each note dispatched only when its time has not
already passed `Tone.Transport.seconds`), a block chord on a PolySynth, or
the chord root on a MonoSynth. -/
def chordEvents (synthKind : SynthKind) (isArpeggiatorOn : Bool)
    (currentChord : List String) (step : Nat) (t bpm transportSeconds : ℚ) :
    List Event :=
  if step % 8 = 0 ∧ synthKind ≠ SynthKind.absent then
    if isArpeggiatorOn = true ∧ synthKind = SynthKind.poly then
      (List.range currentChord.length).filterMap (fun (index : Nat) =>
        let noteTime := t + sixteenthSeconds bpm * (index : ℚ)
        if transportSeconds ≤ noteTime then
          some (Event.arpNote (currentChord.getD index "") "16n" noteTime)
        else none)
    else if synthKind = SynthKind.poly then
      [Event.chordBlock currentChord "4n" t]
    else if synthKind = SynthKind.mono then
      [Event.chordMono (currentChord.headD "") "4n" t]
    else []
  else []

/-- The manual-mode section: every grid row flagged at this step triggers
its fixed note. -/
def manualEvents (manualSequence : List (List Bool)) (synthKind : SynthKind)
    (step : Nat) (t : ℚ) : List Event :=
  (List.range notesForManualSequence.length).filterMap (fun noteIndex =>
    if (manualSequence.getD noteIndex []).getD step false ∧ synthKind ≠ SynthKind.absent then
      some (Event.manualNote (notesForManualSequence.getD noteIndex "") "8n" t)
    else none)

/-- The drum section, fired on every tick regardless of mode: kick, hihat,
snare wherever the pattern's per-step flag is non-zero. -/
def drumEvents (kickPresent snarePresent hihatPresent : Bool)
    (pattern : DrumPattern) (step : Nat) (t : ℚ) : List Event :=
  (if kickPresent ∧ pattern.kick.getD step 0 ≠ 0 then [Event.kick "C1" "8n" t] else []) ++
  (if hihatPresent ∧ pattern.hihat.getD step 0 ≠ 0 then [Event.hihat "8n" t] else []) ++
  (if snarePresent ∧ pattern.snare.getD step 0 ≠ 0 then [Event.snare "8n" t] else [])

/-- One tick of the `Tone.Sequence` callback: the dispatched events in
source order, paired with the new value of `chiptuneMelodyNoteRef`.
The random branch runs only when `activeMode === 'random' &&
currentRandomProgression.length > 0`; the melody note comes from the
precomputed loop array in loop mode or a fresh draw in song mode. -/
def tick (st : SeqState) (step : Nat) (t bpm transportSeconds : ℚ) (rng : Nat) :
    List Event × Option String :=
  let drums := drumEvents st.kickPresent st.snarePresent st.hihatPresent st.pattern step t
  if st.activeMode = Mode.random ∧ 0 < st.progression.length then
    let chordIndex := chordIndexForStep step st.progression.length
    let currentChord := st.progression.getD chordIndex []
    let scale := SCALES st.randomKey
    let melodyNote : Option String :=
      if st.playbackMode = PlaybackMode.loop ∧ 0 < st.melody.length then
        st.melody.get? step
      else if st.playbackMode = PlaybackMode.song then
        some (generateConsistentMelodyNote scale currentChord 4 5 rng)
      else none
    let heldAfter :=
      if st.soundPalette = SoundPalette.Chiptune ∧ st.synthKind = SynthKind.poly then
        (if optTruthy melodyNote then melodyNote else none)
      else st.chiptuneHeld
    (randomMelodyEvents st.soundPalette st.synthKind st.chiptuneHeld melodyNote t ++
       bassEvents st.bassPresent currentChord step t ++
       chordEvents st.synthKind st.isArpeggiatorOn currentChord step t bpm transportSeconds ++
       drums,
     heldAfter)
  else if st.activeMode = Mode.manual then
    (manualEvents st.manualSequence st.synthKind step t ++ drums, st.chiptuneHeld)
  else
    (drums, st.chiptuneHeld)

/-! ### Manual grid toggle (`handleManualSequenceToggle`) -/

/-- JS array element assignment `arr[i] = v`: in-bounds indices overwrite,
out-of-bounds indices extend the array, the skipped slots becoming holes
that read back as `undefined` (falsy, modelled `false`). -/
def jsArraySet (l : List Bool) (i : Nat) (v : Bool) : List Bool :=
  if i < l.length then l.set i v
  else l ++ List.replicate (i - l.length) false ++ [v]

/-- `handleManualSequenceToggle(noteIndex, stepIndex)`: copy the matrix,
copy the addressed row, negate the addressed cell.  When `noteIndex` is out
of range, `[...newSequence[noteIndex]]` spreads `undefined` and throws a
`TypeError`, modelled as `none`; the negation of an out-of-range cell reads
`undefined`, so `!undefined` stores `true`. -/
def handleManualSequenceToggle (prev : List (List Bool)) (noteIndex stepIndex : Nat) :
    Option (List (List Bool)) :=
  if noteIndex < prev.length then
    let row := prev.getD noteIndex []
    some (prev.set noteIndex (jsArraySet row stepIndex (!(row.getD stepIndex false))))
  else none

/-- The initial manual grid:
`Array(notesForManualSequence.length).fill(0).map(() => Array(16).fill(false))`. -/
def initialManualGrid : List (List Bool) :=
  List.replicate notesForManualSequence.length (List.replicate 16 false)

/-- Modelled from the spec: the repository source contains no evolve
operation (no function in `src/` redraws a strict subset of the loop
melody); §4.3 of the spec describes one that redraws a small random subset
(2–3 positions) of an existing 16-step loop melody via the melody
generator, preserving every other slot.  The randomly chosen subset and the
per-slot random draws are injected as parameters; redrawn slots use the
loop melody's octave range {min: 4, max: 5} and the chord active at the
slot. -/
def evolveLoopMelody (melody : List String) (positions : List Nat)
    (scale : List String) (chordAt : Nat → List String) (rng : Nat → Nat) :
    List String :=
  (List.range melody.length).map (fun i =>
    if i ∈ positions then generateConsistentMelodyNote scale (chordAt i) 4 5 (rng i)
    else melody.getD i "")

/-! ### Theorems -/

/-- Note-name/pitch-number conversion round-trips on the MIDI range whose
note strings carry a single-digit octave (octaves 0–9, MIDI 12–131) — the
only range the program's string handling (`slice(0, -1)`) supports. -/
theorem noteToMidi_midiToNote (m : Nat) (h1 : 12 ≤ m) (h2 : m ≤ 131) :
    noteToMidi (midiToNote m) = m := by
  have h : ∀ n : Nat, n < 132 → 12 ≤ n → noteToMidi (midiToNote n) = n := by decide
  exact h m (by omega) h1

/-- Claim C3: for every root pitch number (in the MIDI range with
single-digit octaves), `getChordNotes` returns exactly the notes at
semitone offsets {0,4,7} (major), {0,3,7} (minor), {0,4,7,10} (dominant7)
above the root, and every tone's pitch number is at least the root's —
tones extend upward, never wrapped back into a lower octave. -/
theorem getChordNotes_intervals (r : Nat) (h1 : 12 ≤ r) (h2 : r + 10 ≤ 131) :
    (getChordNotes r ChordType.major).map noteToMidi = [r, r + 4, r + 7] ∧
    (getChordNotes r ChordType.minor).map noteToMidi = [r, r + 3, r + 7] ∧
    (getChordNotes r ChordType.dominant7).map noteToMidi = [r, r + 4, r + 7, r + 10] ∧
    ∀ t : ChordType, ∀ m ∈ (getChordNotes r t).map noteToMidi, r ≤ m := by
  have rt : ∀ k, k ≤ 10 → noteToMidi (midiToNote (r + k)) = r + k := fun k hk =>
    noteToMidi_midiToNote (r + k) (by omega) (by omega)
  have e0 : noteToMidi (midiToNote (r + 0)) = r + 0 := rt 0 (by omega)
  have e3 := rt 3 (by omega)
  have e4 := rt 4 (by omega)
  have e7 := rt 7 (by omega)
  have e10 := rt 10 (by omega)
  refine ⟨?_, ?_, ?_, ?_⟩
  · simp only [getChordNotes, chordIntervals, List.map_cons, List.map_nil, e0, e4, e7]
    simp
  · simp only [getChordNotes, chordIntervals, List.map_cons, List.map_nil, e0, e3, e7]
    simp
  · simp only [getChordNotes, chordIntervals, List.map_cons, List.map_nil, e0, e4, e7, e10]
    simp
  · intro t m hm
    cases t <;>
      simp only [getChordNotes, chordIntervals, List.map_cons, List.map_nil,
        List.mem_cons, List.not_mem_nil, or_false, e0, e3, e4, e7, e10] at hm <;>
      omega

/-- Claim C3 witness: the C3-rooted (MIDI 48) major chord. -/
theorem getChordNotes_intervals_witness :
    (12 ≤ 48 ∧ 48 + 10 ≤ 131) ∧
    (getChordNotes 48 ChordType.major).map noteToMidi = [48, 52, 55] := by
  refine ⟨⟨by omega, by omega⟩, ?_⟩
  have h := (getChordNotes_intervals 48 (by omega) (by omega)).1
  simpa using h

/-- Claim C7: chord-progression resolution is a pure function of the key
(randomness enters only in key selection upstream, which is modelled as the
parameter of `buildProgression`); for C major the fixed table resolves to
exactly 4 chords with degrees I, IV, V7, I, the first being the C-major
triad voiced at octave 3: C3, E3, G3. -/
theorem buildProgression_C_major :
    (CHORD_PROGRESSIONS_DEFINITIONS AllKey.C_major).map (fun d => d.degree) =
      ["I", "IV", "V7", "I"] ∧
    buildProgression AllKey.C_major =
      [["C3", "E3", "G3"], ["F3", "A3", "C4"], ["G3", "B3", "D4", "F4"],
       ["C3", "E3", "G3"]] ∧
    (buildProgression AllKey.C_major).length = 4 := by
  decide

/-- The second chord of the example chord used against the C-minor scale:
the minor triad on D#3. -/
def enharmonicCexChord : List String :=
  getChordNotes (noteToMidi "D#3") ChordType.minor

/-- Claim C1 counterexample: the C-minor scale spells its third "Eb" while
the minor triad on D#3 spells it "D#"; the chord's pitch classes {3, 6, 10}
intersect the scale's pitch classes (3 = Eb/D#, 10 = Bb/A#), yet the
spelling-based filter finds nothing compatible and the fallback can return
"C4", whose pitch class 0 is outside the intersection.  Harmonic comparison
is string equality of spellings, not pitch-class identity. -/
theorem generateConsistentMelodyNote_enharmonic_cex :
    enharmonicCexChord = ["D#3", "F#3", "A#3"] ∧
    ("Eb" ∈ SCALES AllKey.C_minor ∧ pitchClassIndex "Eb" = some 3 ∧
      pitchClassIndex "D#" = some 3) ∧
    enharmonicCexChord.map (fun cn => pitchClassIndex (cn.dropRight 1)) =
      [some 3, some 6, some 10] ∧
    harmonicallyCompatibleNotes (SCALES AllKey.C_minor) enharmonicCexChord 4 5 = [] ∧
    generateConsistentMelodyNote (SCALES AllKey.C_minor) enharmonicCexChord 4 5 0 = "C4" ∧
    pitchClassIndex "C" = some 0 ∧
    pitchClassIndex
        ((generateConsistentMelodyNote (SCALES AllKey.C_minor) enharmonicCexChord
          4 5 0).dropRight 1) ∉
      enharmonicCexChord.map (fun cn => pitchClassIndex (cn.dropRight 1)) := by
  decide

/-- Claim C1 (amended): when the chord and the candidate pool share a note
name by string equality of spellings, the generated note is always drawn
from the compatible set, and in particular its spelling matches some chord
note's spelling.  (The guarantee is by spelling, not by enharmonic
pitch-class identity.) -/
theorem generateConsistentMelodyNote_spelling_compat
    (scale chord : List String) (mn mx : Int) (r : Nat)
    (h : harmonicallyCompatibleNotes scale chord mn mx ≠ []) :
    generateConsistentMelodyNote scale chord mn mx r ∈
      harmonicallyCompatibleNotes scale chord mn mx ∧
    ∃ cn ∈ chord,
      (generateConsistentMelodyNote scale chord mn mx r).dropRight 1 =
        cn.dropRight 1 := by
  have hlen : 0 < (harmonicallyCompatibleNotes scale chord mn mx).length :=
    List.length_pos.mpr h
  have hmem : generateConsistentMelodyNote scale chord mn mx r ∈
      harmonicallyCompatibleNotes scale chord mn mx := by
    unfold generateConsistentMelodyNote
    simp only [hlen, if_pos]
    rw [List.getD_eq_getElem _ _ (Nat.mod_lt _ hlen)]
    exact List.getElem_mem _
  refine ⟨hmem, ?_⟩
  have hmem2 := hmem
  unfold harmonicallyCompatibleNotes at hmem2
  rw [List.mem_filter] at hmem2
  rcases List.any_eq_true.mp hmem2.2 with ⟨cn, hcn, hbeq⟩
  exact ⟨cn, hcn, by simpa using hbeq⟩

/-- Claim C1 witness: C-major scale with the C-major triad; the draw for
`r = 0` lies in the (non-empty) spelling-compatible set. -/
theorem generateConsistentMelodyNote_spelling_compat_witness :
    harmonicallyCompatibleNotes (SCALES AllKey.C_major) ["C3", "E3", "G3"] 4 5 ≠ [] ∧
    generateConsistentMelodyNote (SCALES AllKey.C_major) ["C3", "E3", "G3"] 4 5 0 ∈
      harmonicallyCompatibleNotes (SCALES AllKey.C_major) ["C3", "E3", "G3"] 4 5 :=
  ⟨by decide,
   (generateConsistentMelodyNote_spelling_compat
      (SCALES AllKey.C_major) ["C3", "E3", "G3"] 4 5 0 (by decide)).1⟩

/-- Membership in the octave enumeration gives the inclusive bounds. -/
theorem mem_octavesIn {oct mn mx : Int} (h : oct ∈ octavesIn mn mx) :
    mn ≤ oct ∧ oct ≤ mx := by
  unfold octavesIn at h
  rcases List.mem_map.mp h with ⟨k, hk, rfl⟩
  rw [List.mem_range] at hk
  omega

/-- The head candidate lies in the pool when the range and scale are
non-trivial, so the pool is non-empty. -/
theorem allPossibleNotes_ne_nil {scale : List String} {mn mx : Int}
    (hscale : scale ≠ []) (hrange : mn ≤ mx) :
    allPossibleNotes scale mn mx ≠ [] := by
  have hoct : mn ∈ octavesIn mn mx := by
    unfold octavesIn
    refine List.mem_map.mpr ⟨0, ?_, by omega⟩
    rw [List.mem_range]
    omega
  rcases List.exists_mem_of_ne_nil scale hscale with ⟨name, hname⟩
  have : name ++ toString mn ∈ allPossibleNotes scale mn mx := by
    unfold allPossibleNotes
    exact List.mem_flatMap.mpr ⟨mn, hoct, List.mem_map.mpr ⟨name, hname, rfl⟩⟩
  exact List.ne_nil_of_mem this

/-- Claim C4: for every 7-pitch-class scale, every chord (even one sharing
no spelling with the scale) and every octave range with min ≤ max, the
melody generator succeeds: its result is in the candidate pool, i.e. it is
a scale pitch class bound to an octave within the inclusive range.  No
compatibility hypothesis is needed — when the compatible set is empty the
fallback draws from the full pool. -/
theorem generateConsistentMelodyNote_total
    (scale chord : List String) (mn mx : Int) (r : Nat)
    (hscale : scale.length = 7) (hrange : mn ≤ mx) :
    generateConsistentMelodyNote scale chord mn mx r ∈ allPossibleNotes scale mn mx ∧
    ∃ name ∈ scale, ∃ oct : Int, mn ≤ oct ∧ oct ≤ mx ∧
      generateConsistentMelodyNote scale chord mn mx r = name ++ toString oct := by
  have hne : allPossibleNotes scale mn mx ≠ [] :=
    allPossibleNotes_ne_nil (by intro h; rw [h] at hscale; simp at hscale) hrange
  have hpos : 0 < (allPossibleNotes scale mn mx).length := List.length_pos.mpr hne
  have hmem : generateConsistentMelodyNote scale chord mn mx r ∈
      allPossibleNotes scale mn mx := by
    unfold generateConsistentMelodyNote
    by_cases hc : 0 < (harmonicallyCompatibleNotes scale chord mn mx).length
    · simp only [hc, if_pos]
      have : (harmonicallyCompatibleNotes scale chord mn mx).getD
          (r % (harmonicallyCompatibleNotes scale chord mn mx).length) "" ∈
          harmonicallyCompatibleNotes scale chord mn mx := by
        rw [List.getD_eq_getElem _ _ (Nat.mod_lt _ hc)]
        exact List.getElem_mem _
      exact List.mem_of_mem_filter this
    · simp only [hc, if_neg, not_false_eq_true]
      rw [List.getD_eq_getElem _ _ (Nat.mod_lt _ hpos)]
      exact List.getElem_mem _
  refine ⟨hmem, ?_⟩
  unfold allPossibleNotes at hmem
  rcases List.mem_flatMap.mp hmem with ⟨oct, hoct, hm⟩
  rcases List.mem_map.mp hm with ⟨name, hname, heq⟩
  rcases mem_octavesIn hoct with ⟨h1, h2⟩
  exact ⟨name, hname, oct, h1, h2, heq.symm⟩

/-- Claim C4 witness: C-major scale against an empty chord (no shared
tones): the generator still yields a candidate from the pool. -/
theorem generateConsistentMelodyNote_total_witness :
    (SCALES AllKey.C_major).length = 7 ∧ (4 : Int) ≤ 5 ∧
    generateConsistentMelodyNote (SCALES AllKey.C_major) [] 4 5 0 ∈
      allPossibleNotes (SCALES AllKey.C_major) 4 5 :=
  ⟨by decide, by norm_num,
   (generateConsistentMelodyNote_total (SCALES AllKey.C_major) [] 4 5 0
      (by decide) (by norm_num)).1⟩

/-- Claim C5: the loop melody has exactly 16 slots; slot `i` is generated
against the chord at index `⌊i/4⌋ mod length` — the same
`chordIndexForStep` mapping the sequencer tick uses to resolve the active
chord (both source sites compute `Math.floor(step / 4) % length`) — and for
a 4-chord progression that index is `⌊i/4⌋`: steps 0–3 use chord 0, 4–7
chord 1, 8–11 chord 2, 12–15 chord 3. -/
theorem buildLoopMelody_sixteen (scale : List String)
    (progression : List (List String)) (rng : Nat → Nat) :
    (buildLoopMelody scale progression rng).length = 16 ∧
    (∀ i, i < 16 →
      (buildLoopMelody scale progression rng).getD i "" =
        generateConsistentMelodyNote scale
          (progression.getD (chordIndexForStep i progression.length) []) 4 5 (rng i)) ∧
    (progression.length = 4 → ∀ i, i < 16 →
      chordIndexForStep i progression.length = i / 4) := by
  refine ⟨by simp [buildLoopMelody], ?_, ?_⟩
  · intro i hi
    have hlen : i < (buildLoopMelody scale progression rng).length := by
      simpa [buildLoopMelody] using hi
    rw [List.getD_eq_getElem _ _ hlen]
    unfold buildLoopMelody
    simp [List.getElem_map, List.getElem_range]
  · intro h4 i hi
    rw [h4]
    unfold chordIndexForStep
    omega

/-- Claim C5 witness: with the C-major progression (4 chords), step 13
resolves to chord 3 and the melody has 16 slots. -/
theorem buildLoopMelody_sixteen_witness :
    (buildLoopMelody (SCALES AllKey.C_major) (buildProgression AllKey.C_major)
      (fun _ => 0)).length = 16 ∧
    chordIndexForStep 13 (buildProgression AllKey.C_major).length = 13 / 4 :=
  ⟨(buildLoopMelody_sixteen (SCALES AllKey.C_major) (buildProgression AllKey.C_major)
      (fun _ => 0)).1,
   (buildLoopMelody_sixteen (SCALES AllKey.C_major) (buildProgression AllKey.C_major)
      (fun _ => 0)).2.2 (by decide) 13 (by omega)⟩

/-- Is the event a drum trigger (kick, hihat or snare)? -/
def isDrumEvent : Event → Bool
  | Event.kick _ _ _ => true
  | Event.hihat _ _ => true
  | Event.snare _ _ => true
  | _ => false

/-- Is the event a manual-grid trigger? -/
def isManualEvent : Event → Bool
  | Event.manualNote _ _ _ => true
  | _ => false

/-- Melody-section events are neither drum nor manual triggers. -/
theorem filter_dm_randomMelodyEvents (palette : SoundPalette) (synthKind : SynthKind)
    (held melodyNote : Option String) (t : ℚ) :
    (randomMelodyEvents palette synthKind held melodyNote t).filter
      (fun e => isDrumEvent e || isManualEvent e) = [] := by
  rw [List.filter_eq_nil_iff]
  intro e he
  unfold randomMelodyEvents at he
  split at he
  · rcases List.mem_append.mp he with hm | hm
    · cases held with
      | none => exact absurd hm (List.not_mem_nil e)
      | some n =>
        dsimp only at hm
        split at hm
        · rw [List.mem_singleton] at hm
          subst hm
          simp [isDrumEvent, isManualEvent]
        · exact absurd hm (List.not_mem_nil e)
    · cases melodyNote with
      | none => exact absurd hm (List.not_mem_nil e)
      | some m =>
        dsimp only at hm
        split at hm
        · rw [List.mem_singleton] at hm
          subst hm
          simp [isDrumEvent, isManualEvent]
        · exact absurd hm (List.not_mem_nil e)
  · cases melodyNote with
    | none => exact absurd he (List.not_mem_nil e)
    | some m =>
      dsimp only at he
      split at he
      · rw [List.mem_singleton] at he
        subst he
        simp [isDrumEvent, isManualEvent]
      · exact absurd he (List.not_mem_nil e)

/-- Bass-section events are neither drum nor manual triggers. -/
theorem filter_dm_bassEvents (bassPresent : Bool) (currentChord : List String)
    (step : Nat) (t : ℚ) :
    (bassEvents bassPresent currentChord step t).filter
      (fun e => isDrumEvent e || isManualEvent e) = [] := by
  rw [List.filter_eq_nil_iff]
  intro e he
  unfold bassEvents at he
  split at he
  · rw [List.mem_singleton] at he
    subst he
    simp [isDrumEvent, isManualEvent]
  · exact absurd he (List.not_mem_nil e)

/-- Chord-section events (block, mono or arpeggio) are neither drum nor
manual triggers. -/
theorem filter_dm_chordEvents (synthKind : SynthKind) (arp : Bool)
    (currentChord : List String) (step : Nat) (t bpm ts : ℚ) :
    (chordEvents synthKind arp currentChord step t bpm ts).filter
      (fun e => isDrumEvent e || isManualEvent e) = [] := by
  rw [List.filter_eq_nil_iff]
  intro e he
  unfold chordEvents at he
  split at he
  · split at he
    · rcases List.mem_filterMap.mp he with ⟨i, _, hsome⟩
      dsimp only at hsome
      split at hsome
      · have heq := Option.some.inj hsome
        subst heq
        simp [isDrumEvent, isManualEvent]
      · exact absurd hsome (by simp)
    · split at he
      · rw [List.mem_singleton] at he
        subst he
        simp [isDrumEvent, isManualEvent]
      · split at he
        · rw [List.mem_singleton] at he
          subst he
          simp [isDrumEvent, isManualEvent]
        · exact absurd he (List.not_mem_nil e)
  · exact absurd he (List.not_mem_nil e)

/-- Every drum-section event is a drum trigger. -/
theorem dm_mem_drumEvents (kp sp hp : Bool) (pattern : DrumPattern) (step : Nat)
    (t : ℚ) :
    ∀ e ∈ drumEvents kp sp hp pattern step t,
      (isDrumEvent e || isManualEvent e) = true := by
  intro e he
  unfold drumEvents at he
  rcases List.mem_append.mp he with hm | hm
  · rcases List.mem_append.mp hm with hm2 | hm2
    · split at hm2
      · rw [List.mem_singleton] at hm2
        subst hm2
        simp [isDrumEvent]
      · exact absurd hm2 (List.not_mem_nil e)
    · split at hm2
      · rw [List.mem_singleton] at hm2
        subst hm2
        simp [isDrumEvent]
      · exact absurd hm2 (List.not_mem_nil e)
  · split at hm
    · rw [List.mem_singleton] at hm
      subst hm
      simp [isDrumEvent]
    · exact absurd hm (List.not_mem_nil e)

/-- Every manual-section event is a manual-grid trigger. -/
theorem dm_mem_manualEvents (ms : List (List Bool)) (synthKind : SynthKind)
    (step : Nat) (t : ℚ) :
    ∀ e ∈ manualEvents ms synthKind step t, isManualEvent e = true := by
  intro e he
  unfold manualEvents at he
  rcases List.mem_filterMap.mp he with ⟨i, _, hsome⟩
  split at hsome
  · have heq := Option.some.inj hsome
    subst heq
    simp [isManualEvent]
  · exact absurd hsome (by simp)

/-- In random mode with a non-empty progression, one tick dispatches the
melody, bass, chord and drum sections in source order. -/
theorem tick_random_events (st : SeqState) (step : Nat) (t bpm ts : ℚ) (rng : Nat)
    (hmode : st.activeMode = Mode.random) (hp : 0 < st.progression.length) :
    (tick st step t bpm ts rng).1 =
      randomMelodyEvents st.soundPalette st.synthKind st.chiptuneHeld
        (if st.playbackMode = PlaybackMode.loop ∧ 0 < st.melody.length then
          st.melody.get? step
         else if st.playbackMode = PlaybackMode.song then
          some (generateConsistentMelodyNote (SCALES st.randomKey)
            (st.progression.getD (chordIndexForStep step st.progression.length) [])
            4 5 rng)
         else none) t ++
      bassEvents st.bassPresent
        (st.progression.getD (chordIndexForStep step st.progression.length) [])
        step t ++
      chordEvents st.synthKind st.isArpeggiatorOn
        (st.progression.getD (chordIndexForStep step st.progression.length) [])
        step t bpm ts ++
      drumEvents st.kickPresent st.snarePresent st.hihatPresent st.pattern step t := by
  unfold tick
  simp only [hmode, hp, true_and, and_true, if_true, List.append_assoc]

/-- In random mode with an empty progression, one tick dispatches only the
drum section. -/
theorem tick_random_empty (st : SeqState) (step : Nat) (t bpm ts : ℚ) (rng : Nat)
    (hmode : st.activeMode = Mode.random) (hp : st.progression.length = 0) :
    (tick st step t bpm ts rng).1 =
      drumEvents st.kickPresent st.snarePresent st.hihatPresent st.pattern step t := by
  unfold tick
  simp [hmode, hp]

/-- In manual mode, one tick dispatches the manual-grid section followed by
the drum section. -/
theorem tick_manual_events (st : SeqState) (step : Nat) (t bpm ts : ℚ) (rng : Nat)
    (hmode : st.activeMode = Mode.manual) :
    (tick st step t bpm ts rng).1 =
      manualEvents st.manualSequence st.synthKind step t ++
      drumEvents st.kickPresent st.snarePresent st.hihatPresent st.pattern step t := by
  unfold tick
  simp [hmode]

/-- Claim C2: on a tick whose active progression is empty, the melody, bass
and chord triggers are all skipped (everything that fires is a drum or
manual-grid trigger), and the drum and manual-grid triggers are exactly
those the same tick would produce with any other progression. -/
theorem tick_empty_progression_skips (st : SeqState) (p2 : List (List String))
    (step : Nat) (t bpm ts : ℚ) (rng : Nat) (h : st.progression = []) :
    (∀ e ∈ (tick st step t bpm ts rng).1,
      isDrumEvent e = true ∨ isManualEvent e = true) ∧
    (tick { st with progression := p2 } step t bpm ts rng).1.filter
        (fun e => isDrumEvent e || isManualEvent e) =
      (tick st step t bpm ts rng).1 := by
  have hmode : st.activeMode = Mode.random ∨ st.activeMode = Mode.manual := by
    cases st.activeMode
    · exact Or.inl rfl
    · exact Or.inr rfl
  have hdrum : (drumEvents st.kickPresent st.snarePresent st.hihatPresent
      st.pattern step t).filter (fun e => isDrumEvent e || isManualEvent e) =
      drumEvents st.kickPresent st.snarePresent st.hihatPresent st.pattern step t :=
    List.filter_eq_self.mpr (dm_mem_drumEvents _ _ _ _ _ _)
  have hman : (manualEvents st.manualSequence st.synthKind step t).filter
      (fun e => isDrumEvent e || isManualEvent e) =
      manualEvents st.manualSequence st.synthKind step t :=
    List.filter_eq_self.mpr (fun e he => by
      rw [dm_mem_manualEvents _ _ _ _ e he, Bool.or_true])
  rcases hmode with hM | hM
  · -- random mode: the empty-progression tick is drums only
    have hred : (tick st step t bpm ts rng).1 =
        drumEvents st.kickPresent st.snarePresent st.hihatPresent st.pattern step t :=
      tick_random_empty st step t bpm ts rng hM (by rw [h]; rfl)
    constructor
    · intro e he
      rw [hred] at he
      rcases Bool.or_eq_true_iff.mp (dm_mem_drumEvents _ _ _ _ _ _ e he) with h1 | h1
      · exact Or.inl h1
      · exact Or.inr h1
    · rw [hred]
      by_cases hp : 0 < p2.length
      · rw [tick_random_events { st with progression := p2 } step t bpm ts rng hM hp]
        rw [List.filter_append, List.filter_append, List.filter_append,
          filter_dm_randomMelodyEvents, filter_dm_bassEvents, filter_dm_chordEvents,
          hdrum]
        simp
      · rw [tick_random_empty { st with progression := p2 } step t bpm ts rng hM
          (by show p2.length = 0; omega)]
        exact hdrum
  · -- manual mode: the progression is irrelevant and the grid fires as-is
    have hred : (tick st step t bpm ts rng).1 =
        manualEvents st.manualSequence st.synthKind step t ++
        drumEvents st.kickPresent st.snarePresent st.hihatPresent st.pattern step t :=
      tick_manual_events st step t bpm ts rng hM
    constructor
    · intro e he
      rw [hred] at he
      rcases List.mem_append.mp he with hm | hm
      · exact Or.inr (dm_mem_manualEvents _ _ _ _ e hm)
      · rcases Bool.or_eq_true_iff.mp (dm_mem_drumEvents _ _ _ _ _ _ e hm) with h1 | h1
        · exact Or.inl h1
        · exact Or.inr h1
    · rw [hred, tick_manual_events { st with progression := p2 } step t bpm ts rng hM,
        List.filter_append, hdrum, hman]

/-- A concrete random-mode state whose progression is empty, as observed
mid-regeneration. -/
def emptyProgressionState : SeqState :=
  ⟨Mode.random, PlaybackMode.loop, SoundPalette.sawtooth, SynthKind.poly,
   true, true, true, true, false, AllKey.C_major, [], [], initialManualGrid,
   drumPatterns.getD 0 ⟨"", [], [], []⟩, none⟩

/-- Claim C2 witness: on the empty-progression state, tick 0 produces
exactly the drum-and-manual subsequence of the same tick run with the
C-major progression. -/
theorem tick_empty_progression_skips_witness :
    (tick { emptyProgressionState with progression := buildProgression AllKey.C_major }
        0 0 120 0 0).1.filter (fun e => isDrumEvent e || isManualEvent e) =
      (tick emptyProgressionState 0 0 120 0 0).1 :=
  (tick_empty_progression_skips emptyProgressionState
    (buildProgression AllKey.C_major) 0 0 120 0 0 rfl).2

/-- Is the event an arpeggio note? -/
def isArpEvent : Event → Bool
  | Event.arpNote _ _ _ => true
  | _ => false

/-- Melody-section events are never arpeggio notes. -/
theorem arp_filter_randomMelodyEvents (palette : SoundPalette) (synthKind : SynthKind)
    (held melodyNote : Option String) (t : ℚ) :
    (randomMelodyEvents palette synthKind held melodyNote t).filter isArpEvent = [] := by
  rw [List.filter_eq_nil_iff]
  intro e he
  unfold randomMelodyEvents at he
  split at he
  · rcases List.mem_append.mp he with hm | hm
    · cases held with
      | none => exact absurd hm (List.not_mem_nil e)
      | some n =>
        dsimp only at hm
        split at hm
        · rw [List.mem_singleton] at hm
          subst hm
          simp [isArpEvent]
        · exact absurd hm (List.not_mem_nil e)
    · cases melodyNote with
      | none => exact absurd hm (List.not_mem_nil e)
      | some m =>
        dsimp only at hm
        split at hm
        · rw [List.mem_singleton] at hm
          subst hm
          simp [isArpEvent]
        · exact absurd hm (List.not_mem_nil e)
  · cases melodyNote with
    | none => exact absurd he (List.not_mem_nil e)
    | some m =>
      dsimp only at he
      split at he
      · rw [List.mem_singleton] at he
        subst he
        simp [isArpEvent]
      · exact absurd he (List.not_mem_nil e)

/-- Bass-section events are never arpeggio notes. -/
theorem arp_filter_bassEvents (bassPresent : Bool) (currentChord : List String)
    (step : Nat) (t : ℚ) :
    (bassEvents bassPresent currentChord step t).filter isArpEvent = [] := by
  rw [List.filter_eq_nil_iff]
  intro e he
  unfold bassEvents at he
  split at he
  · rw [List.mem_singleton] at he
    subst he
    simp [isArpEvent]
  · exact absurd he (List.not_mem_nil e)

/-- Drum-section events are never arpeggio notes. -/
theorem arp_filter_drumEvents (kp sp hp : Bool) (pattern : DrumPattern) (step : Nat)
    (t : ℚ) :
    (drumEvents kp sp hp pattern step t).filter isArpEvent = [] := by
  rw [List.filter_eq_nil_iff]
  intro e he
  rcases Bool.or_eq_true_iff.mp (dm_mem_drumEvents kp sp hp pattern step t e he)
    with h1 | h1
  · cases e <;> simp_all [isDrumEvent, isArpEvent]
  · cases e <;> simp_all [isManualEvent, isArpEvent]

/-- An event of the chord section with arpeggiation on and a polyphonic
synthesizer is exactly an arpeggio note for some chord index whose computed
time has not yet passed. -/
theorem mem_chordEvents_arp (synthKind : SynthKind) (arp : Bool)
    (currentChord : List String) (step : Nat) (t bpm ts : ℚ)
    (hstep : step % 8 = 0) (hsynth : synthKind = SynthKind.poly) (harp : arp = true)
    (e : Event) :
    e ∈ chordEvents synthKind arp currentChord step t bpm ts ↔
      ∃ j < currentChord.length,
        ts ≤ t + sixteenthSeconds bpm * (j : ℚ) ∧
        e = Event.arpNote (currentChord.getD j "") "16n"
          (t + sixteenthSeconds bpm * (j : ℚ)) := by
  subst hsynth harp
  unfold chordEvents
  rw [if_pos ⟨hstep, by simp⟩, if_pos ⟨rfl, rfl⟩]
  constructor
  · intro he
    rcases List.mem_filterMap.mp he with ⟨j, hj, hsome⟩
    dsimp only at hsome
    split at hsome
    · exact ⟨j, List.mem_range.mp hj, by assumption, (Option.some.inj hsome).symm⟩
    · exact absurd hsome (by simp)
  · rintro ⟨j, hj, hts, rfl⟩
    refine List.mem_filterMap.mpr ⟨j, List.mem_range.mpr hj, ?_⟩
    dsimp only
    rw [if_pos hts]

/-- Claim C6: with arpeggiation enabled, a polyphonic synthesizer, and a
tick at `step % 8 = 0`, tone `k` of the active chord is scheduled exactly
at `t + k·Δ` with `Δ = sixteenthSeconds bpm`, and its event is dispatched
if and only if that time has not passed the transport position `ts`; no
arpeggio event anywhere in the tick is ever scheduled before `ts` (late
notes are dropped, never queued). -/
theorem tick_arpeggio_schedule (st : SeqState) (step : Nat) (t bpm ts : ℚ)
    (rng : Nat) (hmode : st.activeMode = Mode.random) (hp : st.progression ≠ [])
    (harp : st.isArpeggiatorOn = true) (hsynth : st.synthKind = SynthKind.poly)
    (hstep : step % 8 = 0) (hbpm : 0 < bpm) :
    (∀ k, k <
        (st.progression.getD (chordIndexForStep step st.progression.length) []).length →
      (Event.arpNote
          ((st.progression.getD (chordIndexForStep step st.progression.length) []).getD
            k "") "16n" (t + sixteenthSeconds bpm * (k : ℚ)) ∈
          (tick st step t bpm ts rng).1 ↔
        ts ≤ t + sixteenthSeconds bpm * (k : ℚ))) ∧
    (∀ note dur τ, Event.arpNote note dur τ ∈ (tick st step t bpm ts rng).1 →
      ts ≤ τ) := by
  have hplen : 0 < st.progression.length := List.length_pos.mpr hp
  have hΔ : sixteenthSeconds bpm ≠ 0 := by
    unfold sixteenthSeconds
    positivity
  have hsplit : ∀ note dur τ,
      Event.arpNote note dur τ ∈ (tick st step t bpm ts rng).1 ↔
      Event.arpNote note dur τ ∈ chordEvents st.synthKind st.isArpeggiatorOn
        (st.progression.getD (chordIndexForStep step st.progression.length) [])
        step t bpm ts := by
    intro note dur τ
    rw [tick_random_events st step t bpm ts rng hmode hplen]
    simp only [List.mem_append]
    constructor
    · rintro (((hx | hx) | hx) | hx)
      · exfalso
        have hmem : Event.arpNote note dur τ ∈
            (randomMelodyEvents st.soundPalette st.synthKind st.chiptuneHeld
              (if st.playbackMode = PlaybackMode.loop ∧ 0 < st.melody.length then
                st.melody.get? step
               else if st.playbackMode = PlaybackMode.song then
                some (generateConsistentMelodyNote (SCALES st.randomKey)
                  (st.progression.getD (chordIndexForStep step st.progression.length)
                    []) 4 5 rng)
               else none) t).filter isArpEvent :=
          List.mem_filter.mpr ⟨hx, rfl⟩
        rw [arp_filter_randomMelodyEvents] at hmem
        exact List.not_mem_nil _ hmem
      · exfalso
        have hmem : Event.arpNote note dur τ ∈
            (bassEvents st.bassPresent
              (st.progression.getD (chordIndexForStep step st.progression.length) [])
              step t).filter isArpEvent :=
          List.mem_filter.mpr ⟨hx, rfl⟩
        rw [arp_filter_bassEvents] at hmem
        exact List.not_mem_nil _ hmem
      · exact hx
      · exfalso
        have hmem : Event.arpNote note dur τ ∈
            (drumEvents st.kickPresent st.snarePresent st.hihatPresent st.pattern
              step t).filter isArpEvent :=
          List.mem_filter.mpr ⟨hx, rfl⟩
        rw [arp_filter_drumEvents] at hmem
        exact List.not_mem_nil _ hmem
    · intro hx
      exact Or.inl (Or.inr hx)
  constructor
  · intro k hk
    rw [hsplit, mem_chordEvents_arp _ _ _ _ _ _ _ hstep hsynth harp]
    constructor
    · rintro ⟨j, hj, hts, heq⟩
      rw [Event.arpNote.injEq] at heq
      have htime : t + sixteenthSeconds bpm * (k : ℚ) =
          t + sixteenthSeconds bpm * (j : ℚ) := heq.2.2
      have : (k : ℚ) = (j : ℚ) := by
        have h2 : sixteenthSeconds bpm * (k : ℚ) = sixteenthSeconds bpm * (j : ℚ) := by
          linarith
        exact mul_left_cancel₀ hΔ h2
      have hkj : k = j := by exact_mod_cast this
      subst hkj
      exact hts
    · intro hts
      exact ⟨k, hk, hts, rfl⟩
  · intro note dur τ hmem
    rw [hsplit, mem_chordEvents_arp _ _ _ _ _ _ _ hstep hsynth harp] at hmem
    rcases hmem with ⟨j, hj, hts, heq⟩
    rw [Event.arpNote.injEq] at heq
    rw [heq.2.2]
    exact hts

/-- A concrete random-mode state with arpeggiation on and the single
C-major chord, used to witness the arpeggio schedule. -/
def arpDemoState : SeqState :=
  ⟨Mode.random, PlaybackMode.loop, SoundPalette.sawtooth, SynthKind.poly,
   true, true, true, true, true, AllKey.C_major, [["C3", "E3", "G3"]], [],
   initialManualGrid, drumPatterns.getD 0 ⟨"", [], [], []⟩, none⟩

/-- Claim C6 witness: at transport time 0, tempo 120, transport position 0,
the third chord tone is dispatched at `0 + 2·Δ`. -/
theorem tick_arpeggio_schedule_witness :
    Event.arpNote
      ((arpDemoState.progression.getD
          (chordIndexForStep 0 arpDemoState.progression.length) []).getD 2 "")
      "16n" (0 + sixteenthSeconds 120 * ((2 : Nat) : ℚ)) ∈
      (tick arpDemoState 0 0 120 0 0).1 :=
  ((tick_arpeggio_schedule arpDemoState 0 0 120 0 0 rfl (by decide) rfl rfl
      (by decide) (by norm_num)).1 2 (by decide)).mpr
    (by norm_num [sixteenthSeconds])

/-- Reading a just-set index yields the new value. -/
theorem getD_set_eq {α : Type _} (l : List α) (i : Nat) (a d : α) (hi : i < l.length) :
    (l.set i a).getD i d = a := by
  rw [List.getD_eq_getElem?_getD, List.getElem?_set_eq_of_lt _ hi]
  rfl

/-- Reading any other index is unaffected by a set. -/
theorem getD_set_ne {α : Type _} (l : List α) {i j : Nat} (a d : α) (h : i ≠ j) :
    (l.set i a).getD j d = l.getD j d := by
  rw [List.getD_eq_getElem?_getD, List.getD_eq_getElem?_getD, List.getElem?_set_ne h]

/-- Writing back the value already stored is the identity. -/
theorem set_getD_self {α : Type _} (l : List α) (i : Nat) (d : α) (hi : i < l.length) :
    l.set i (l.getD i d) = l := by
  apply List.ext_getElem?
  intro n
  rcases eq_or_ne i n with rfl | hn
  · rw [List.getElem?_set_eq_of_lt _ hi, List.getD_eq_getElem _ _ hi,
      List.getElem?_eq_getElem hi]
  · rw [List.getElem?_set_ne hn]

/-- Claim C8: an in-bounds toggle flips exactly the addressed cell, leaves
every other cell unchanged, and toggling the same cell twice restores the
original grid. -/
theorem handleManualSequenceToggle_involution (g : List (List Bool)) (r c : Nat)
    (hr : r < g.length) (hc : c < (g.getD r []).length) :
    (∀ g2, handleManualSequenceToggle g r c = some g2 →
      (g2.getD r []).getD c false = !((g.getD r []).getD c false) ∧
      ∀ r2 c2, ¬(r2 = r ∧ c2 = c) →
        (g2.getD r2 []).getD c2 false = (g.getD r2 []).getD c2 false) ∧
    (handleManualSequenceToggle g r c).bind
      (fun g2 => handleManualSequenceToggle g2 r c) = some g := by
  have hsome : handleManualSequenceToggle g r c =
      some (g.set r ((g.getD r []).set c (!((g.getD r []).getD c false)))) := by
    simp only [handleManualSequenceToggle, jsArraySet]
    rw [if_pos hr, if_pos hc]
  constructor
  · intro g2 heq
    rw [hsome] at heq
    have hg2 := (Option.some.inj heq).symm
    subst hg2
    constructor
    · rw [getD_set_eq _ _ _ _ hr, getD_set_eq _ _ _ _ hc]
    · intro r2 c2 hne
      rcases eq_or_ne r2 r with rfl | hrne
      · have hcne : c ≠ c2 := by
          intro hcc
          exact hne ⟨rfl, hcc.symm⟩
        rw [getD_set_eq _ _ _ _ hr, getD_set_ne _ _ _ hcne]
      · rw [getD_set_ne _ _ _ (Ne.symm hrne)]
  · rw [hsome, Option.some_bind]
    simp only [handleManualSequenceToggle, jsArraySet]
    have hlen : r < (g.set r ((g.getD r []).set c (!((g.getD r []).getD c false)))).length := by
      rw [List.length_set]
      exact hr
    rw [if_pos hlen]
    rw [getD_set_eq _ _ _ _ hr]
    have hlen2 : c < ((g.getD r []).set c (!((g.getD r []).getD c false))).length := by
      rw [List.length_set]
      exact hc
    rw [if_pos hlen2]
    rw [getD_set_eq _ _ _ _ hc, Bool.not_not, List.set_set, List.set_set,
      set_getD_self _ _ _ hc, set_getD_self _ _ _ hr]

/-- Claim C8 witness: toggling cell (2,5) of the initial 8×16 grid twice
restores the grid. -/
theorem handleManualSequenceToggle_involution_witness :
    (2 < initialManualGrid.length ∧ 5 < (initialManualGrid.getD 2 []).length) ∧
    (handleManualSequenceToggle initialManualGrid 2 5).bind
      (fun g2 => handleManualSequenceToggle g2 2 5) = some initialManualGrid :=
  ⟨⟨by decide, by decide⟩,
   (handleManualSequenceToggle_involution initialManualGrid 2 5 (by decide)
      (by decide)).2⟩

/-- Claim C9 counterexample: the toggle handler performs no bounds check.
Row index 8 on the 8×16 grid faults (spreading `undefined` throws), and
column index 16 does not leave the grid unchanged — it extends row 0. -/
theorem handleManualSequenceToggle_oob_cex :
    handleManualSequenceToggle initialManualGrid 8 0 = none ∧
    handleManualSequenceToggle initialManualGrid 0 16 ≠ some initialManualGrid := by
  decide

/-- Claim C9 (amended): the toggle handler has no bounds checking: a row
index past the end of the grid makes the update throw (modelled `none`)
instead of being rejected cleanly, and an in-range row with a column index
past 16 extends that row in place with padding and a `true` cell instead of
leaving the grid unchanged. -/
theorem handleManualSequenceToggle_oob (g : List (List Bool)) (r c : Nat) :
    (g.length ≤ r → handleManualSequenceToggle g r c = none) ∧
    (r < g.length → (g.getD r []).length ≤ c →
      handleManualSequenceToggle g r c =
        some (g.set r ((g.getD r []) ++
          List.replicate (c - (g.getD r []).length) false ++ [true]))) := by
  constructor
  · intro h
    unfold handleManualSequenceToggle
    rw [if_neg (by omega)]
  · intro hr hc
    simp only [handleManualSequenceToggle, jsArraySet]
    rw [if_pos hr, if_neg (by omega), List.getD_eq_default _ _ hc, Bool.not_false]

/-- Claim C9 amended-theorem witness: column 16 on row 0 of the initial
grid extends the row. -/
theorem handleManualSequenceToggle_oob_witness :
    handleManualSequenceToggle initialManualGrid 0 16 =
      some (initialManualGrid.set 0 ((initialManualGrid.getD 0 []) ++
        List.replicate (16 - (initialManualGrid.getD 0 []).length) false ++ [true])) :=
  (handleManualSequenceToggle_oob initialManualGrid 0 16).2 (by decide) (by decide)

/-- Claim C10 (modelled from the spec, no such code exists in `src/`): the
evolve operation keeps the melody 16 slots long, redraws exactly the chosen
positions via the melody generator, and leaves every other slot unchanged;
the randomly chosen subset has 2–3 positions. -/
theorem evolveLoopMelody_frame (melody : List String) (positions : List Nat)
    (scale : List String) (chordAt : Nat → List String) (rng : Nat → Nat)
    (hm : melody.length = 16) (_h2 : 2 ≤ positions.length)
    (_h3 : positions.length ≤ 3) :
    (evolveLoopMelody melody positions scale chordAt rng).length = 16 ∧
    (∀ i, i < 16 → i ∉ positions →
      (evolveLoopMelody melody positions scale chordAt rng).getD i "" =
        melody.getD i "") ∧
    (∀ i, i < 16 → i ∈ positions →
      (evolveLoopMelody melody positions scale chordAt rng).getD i "" =
        generateConsistentMelodyNote scale (chordAt i) 4 5 (rng i)) := by
  have hlen : (evolveLoopMelody melody positions scale chordAt rng).length =
      melody.length := by
    unfold evolveLoopMelody
    simp
  refine ⟨by rw [hlen, hm], ?_, ?_⟩
  · intro i hi hmem
    have hi2 : i < (evolveLoopMelody melody positions scale chordAt rng).length := by
      omega
    rw [List.getD_eq_getElem _ _ hi2]
    unfold evolveLoopMelody
    simp only [List.getElem_map, List.getElem_range]
    rw [if_neg hmem]
  · intro i hi hmem
    have hi2 : i < (evolveLoopMelody melody positions scale chordAt rng).length := by
      omega
    rw [List.getD_eq_getElem _ _ hi2]
    unfold evolveLoopMelody
    simp only [List.getElem_map, List.getElem_range]
    rw [if_pos hmem]

/-- Claim C10 witness: evolving a concrete 16-slot melody at positions
{3, 7} leaves slot 0 unchanged. -/
theorem evolveLoopMelody_frame_witness :
    (List.replicate 16 "C4").length = 16 ∧
    (evolveLoopMelody (List.replicate 16 "C4") [3, 7] (SCALES AllKey.C_major)
      (fun _ => ["C3", "E3", "G3"]) (fun _ => 0)).getD 0 "" =
      (List.replicate 16 "C4").getD 0 "" :=
  ⟨by decide,
   (evolveLoopMelody_frame (List.replicate 16 "C4") [3, 7] (SCALES AllKey.C_major)
      (fun _ => ["C3", "E3", "G3"]) (fun _ => 0) (by decide) (by decide)
      (by decide)).2.1 0 (by decide) (by decide)⟩

end BeatRX
